import Mathlib

/-!
Verification development for the HLL sketch core of the
apache/incubator-datasketches-cpp repository.

The repository ships `HllArray.hpp` (interface declarations of the dense
HLL array representation) and the tuple-sketch test suite; the bodies of
the HLL engine (`HllArray-internal.hpp`, the coupon list/set, the union,
the serializer) and of the tuple sketch are not part of the excerpt, so
the corresponding operations are modelled from the specification and
proved against that model.  Machine doubles are modelled as rationals
(`ℚ`) and packed byte arrays as lists of natural-number bucket values.
-/

namespace DataSketches

/-- Target HLL type: the three dense bit-width variants (4-, 6-, 8-bit). -/
inductive TgtHllType
  | HLL_4
  | HLL_6
  | HLL_8
deriving DecidableEq

/-- Modelled from the spec: a coupon packs `(bucketIndex, value)`, the low
26 bits holding the hash-derived key and the next 6 bits the run-length
value.  The slot number is the key reduced modulo the configured number of
buckets `2^lgConfigK`. -/
def couponSlotNo (coupon lgConfigK : ℕ) : ℕ :=
  (coupon % 2 ^ 26) % 2 ^ lgConfigK

/-- Modelled from the spec: the run-length value carried by a coupon,
stored above the 26 key bits in a 6-bit field. -/
def couponValue (coupon : ℕ) : ℕ :=
  (coupon / 2 ^ 26) % 2 ^ 6

/-- Dense HLL array state, mirroring the fields of `HllArray` in
`HllArray.hpp`: the HIP accumulator, the two KxQ accumulators, the packed
per-bucket value array (modelled as a list of naturals), `curMin`,
`numAtCurMin` and the out-of-order flag. -/
structure HllArrayState where
  lgConfigK : ℕ
  tgtHllType : TgtHllType
  hipAccum : ℚ
  kxq0 : ℚ
  kxq1 : ℚ
  hllByteArr : List ℕ
  curMin : ℕ
  numAtCurMin : ℕ
  oooFlag : Bool
deriving DecidableEq

/-- The contribution `2^(-v)` of a bucket holding value `v` to the KxQ
accumulators. -/
def invPow2 (v : ℕ) : ℚ := 1 / 2 ^ v

/-- Split point of the KxQ accumulators: buckets with value below 32
contribute to `kxq0`, the rest to `kxq1`. -/
def kxqSplitPoint : ℕ := 32

/-- Minimum of a list of naturals (0 for the empty list; the bucket array
is never empty). -/
def listMin : List ℕ → ℕ
  | [] => 0
  | [x] => x
  | x :: y :: t => min x (listMin (y :: t))

/-- Number of occurrences of `v` in a list of bucket values. -/
def countVal (v : ℕ) : List ℕ → ℕ
  | [] => 0
  | x :: xs => (if x = v then 1 else 0) + countVal v xs

/-- Modelled from the spec: `hipAndKxQIncrementalUpdate` (declared in
`HllArray.hpp`, body not in the excerpt).  Before the bucket change the
HIP accumulator grows by `2^lgConfigK` divided by the current total KxQ
sum (when not out of order), then the old value's KxQ contribution is
removed and the new value's contribution added, each on the side of the
split point its value selects. -/
def hipAndKxQIncrementalUpdate (host : HllArrayState) (oldValue newValue : ℕ) :
    HllArrayState :=
  let kxq := host.kxq0 + host.kxq1
  let hip' := if host.oooFlag then host.hipAccum
              else host.hipAccum + (2 ^ host.lgConfigK : ℚ) / kxq
  let k0 := if oldValue < kxqSplitPoint then host.kxq0 - invPow2 oldValue else host.kxq0
  let k1 := if oldValue < kxqSplitPoint then host.kxq1 else host.kxq1 - invPow2 oldValue
  let k0' := if newValue < kxqSplitPoint then k0 + invPow2 newValue else k0
  let k1' := if newValue < kxqSplitPoint then k1 else k1 + invPow2 newValue
  { host with hipAccum := hip', kxq0 := k0', kxq1 := k1' }

/-- Modelled from the spec: `couponUpdate` on a dense array (body not in
the excerpt).  Decode the coupon; if the new value does not exceed the
stored bucket value the update is a no-op; otherwise run the HIP-and-KxQ
incremental update, write the bucket, and maintain `curMin`/`numAtCurMin`
(dynamically tracked for the 4-bit variant, pinned at zero with
`numAtCurMin` counting zero buckets for the 6- and 8-bit variants). -/
def couponUpdate (st : HllArrayState) (coupon : ℕ) : HllArrayState :=
  let slotNo := couponSlotNo coupon st.lgConfigK
  let newValue := couponValue coupon
  let oldValue := st.hllByteArr.getD slotNo 0
  if newValue ≤ oldValue then st
  else
    let st1 := hipAndKxQIncrementalUpdate st oldValue newValue
    let arr' := st.hllByteArr.set slotNo newValue
    match st.tgtHllType with
    | TgtHllType.HLL_4 =>
      if oldValue = st.curMin then
        if st.numAtCurMin ≤ 1 then
          { st1 with hllByteArr := arr', curMin := listMin arr',
                     numAtCurMin := countVal (listMin arr') arr' }
        else
          { st1 with hllByteArr := arr', numAtCurMin := st.numAtCurMin - 1 }
      else
        { st1 with hllByteArr := arr' }
    | _ =>
      if oldValue = 0 then
        { st1 with hllByteArr := arr', numAtCurMin := st.numAtCurMin - 1 }
      else
        { st1 with hllByteArr := arr' }

/-- Modelled from the spec: a freshly promoted dense array — every bucket
zero, `kxq0 = 2^lgConfigK` (each of the `2^lgConfigK` zero buckets
contributes `2^0 = 1`), `curMin = 0`, `numAtCurMin = 2^lgConfigK`,
sequential (`oooFlag = false`). -/
def initArray (lgConfigK : ℕ) (tgt : TgtHllType) : HllArrayState :=
  { lgConfigK := lgConfigK
    tgtHllType := tgt
    hipAccum := 0
    kxq0 := (2 ^ lgConfigK : ℚ)
    kxq1 := 0
    hllByteArr := List.replicate (2 ^ lgConfigK) 0
    curMin := 0
    numAtCurMin := 2 ^ lgConfigK
    oooFlag := false }

/-- KxQ0 contribution of a bucket array, rebuilt by rescanning. -/
def kxq0OfArr (l : List ℕ) : ℚ :=
  (l.map (fun v => if v < kxqSplitPoint then invPow2 v else 0)).sum

/-- KxQ1 contribution of a bucket array, rebuilt by rescanning. -/
def kxq1OfArr (l : List ℕ) : ℚ :=
  (l.map (fun v => if v < kxqSplitPoint then 0 else invPow2 v)).sum

/-- Modelled from the spec: union of two dense arrays at the same
configured precision.  Buckets are combined per index by taking the
maximum run-length value; `kxq0`/`kxq1`/`curMin`/`numAtCurMin` are rebuilt
by rescanning the combined bucket array; the result is marked out of
order. -/
def mergeArray (a b : HllArrayState) : HllArrayState :=
  let arr' := List.zipWith max a.hllByteArr b.hllByteArr
  let cm := match a.tgtHllType with
            | TgtHllType.HLL_4 => listMin arr'
            | _ => 0
  { a with hllByteArr := arr'
           kxq0 := kxq0OfArr arr'
           kxq1 := kxq1OfArr arr'
           curMin := cm
           numAtCurMin := countVal cm arr'
           oooFlag := true }

/-- Modelled from the spec: harmonic number `H_n = ∑ 1/i`, used by the
bucket-at-min ("bit map") exact small-range correction. -/
def harmonicNumber : ℕ → ℚ
  | 0 => 0
  | n + 1 => harmonicNumber n + 1 / (n + 1 : ℚ)

/-- Modelled from the spec: `getHllBitMapEstimate` (declared in
`HllArray.hpp`) — the sub-threshold bucket-at-min exact correction,
derived from the number of still-unhit (minimum-valued) buckets. -/
def getHllBitMapEstimate (lgConfigK curMin numAtCurMin : ℕ) : ℚ :=
  let configK := 2 ^ lgConfigK
  let numUnhitBuckets := if curMin = 0 then numAtCurMin else 0
  let numHitBuckets := configK - numUnhitBuckets
  (configK : ℚ) * (harmonicNumber configK - harmonicNumber (configK - numHitBuckets))

/-- Modelled from the spec: empirical correction factor of the raw HLL
estimator (a precomputed per-precision constant in the reference
implementation). -/
def hllRawCorrectionFactor : ℚ := 7213 / 10000

/-- Modelled from the spec: `getHllRawEstimate` (declared in
`HllArray.hpp`) — the standard harmonic-mean raw HLL estimator
`correction * k^2 / (kxq0 + kxq1)`. -/
def getHllRawEstimate (lgConfigK : ℕ) (kxqSum : ℚ) : ℚ :=
  let configK : ℚ := 2 ^ lgConfigK
  hllRawCorrectionFactor * configK * configK / kxqSum

/-- Modelled from the spec: `getCompositeEstimate` — a raw HLL estimate
derived from `kxq0`/`kxq1`, replaced by the bucket-at-min small-range
correction when the array is in the low-fill regime (some buckets still
at minimum zero and the raw estimate small relative to `2^lgConfigK`). -/
def getCompositeEstimate (st : HllArrayState) : ℚ :=
  let configK : ℚ := 2 ^ st.lgConfigK
  let rawEst := getHllRawEstimate st.lgConfigK (st.kxq0 + st.kxq1)
  if st.curMin = 0 ∧ 0 < st.numAtCurMin ∧ rawEst < 3 * configK then
    getHllBitMapEstimate st.lgConfigK st.curMin st.numAtCurMin
  else rawEst

/-- `getEstimate` of a dense array, as declared in `HllArray.hpp` and
described by the spec: the HIP accumulator when the state is sequential,
the composite estimator once the out-of-order flag is set. -/
def HllArrayState.getEstimate (st : HllArrayState) : ℚ :=
  if st.oooFlag then getCompositeEstimate st else st.hipAccum

/-- Modelled from the spec: the fixed relative-standard-error table keyed
by `lgConfigK` (precomputed constants in the reference implementation,
close to `1.04 / sqrt(2^lgConfigK)`). -/
def relativeStdErr (lgConfigK : ℕ) : ℚ :=
  104 / (100 * 2 ^ (lgConfigK / 2))

/-- Modelled from the spec: `getLowerBound(numStdDev)` — the estimate
scaled by `(1 - numStdDev * relativeStdErr)`; a `numStdDev` outside the
supported 1–3 range is an input-validation error (`none`). -/
def HllArrayState.getLowerBound (st : HllArrayState) (numStdDev : ℕ) : Option ℚ :=
  if 1 ≤ numStdDev ∧ numStdDev ≤ 3 then
    some (st.getEstimate * (1 - numStdDev * relativeStdErr st.lgConfigK))
  else none

/-- Modelled from the spec: `getUpperBound(numStdDev)` — the estimate
scaled by `(1 + numStdDev * relativeStdErr)`; a `numStdDev` outside the
supported 1–3 range is an input-validation error (`none`). -/
def HllArrayState.getUpperBound (st : HllArrayState) (numStdDev : ℕ) : Option ℚ :=
  if 1 ≤ numStdDev ∧ numStdDev ≤ 3 then
    some (st.getEstimate * (1 + numStdDev * relativeStdErr st.lgConfigK))
  else none

/-- The active representation of a sketch: sparse coupon list, sparse
coupon hash set (modelled as its list of stored coupons), or a dense
array. -/
inductive SketchImpl
  | list (coupons : List ℕ)
  | set (coupons : List ℕ)
  | array (st : HllArrayState)
deriving DecidableEq

/-- The externally visible sketch handle: configured precision, target
dense variant, and exactly one active representation. -/
structure HllSketch where
  lgConfigK : ℕ
  tgtHllType : TgtHllType
  impl : SketchImpl
deriving DecidableEq

/-- Modelled from the spec: the List→Set promotion threshold (a small
fixed capacity). -/
def listToSetThreshold : ℕ := 8

/-- Modelled from the spec: the Set→Array promotion threshold, a function
of `lgConfigK` (a fixed fraction of the bucket count, never below the
List→Set threshold). -/
def sparsePromotionThreshold (lgConfigK : ℕ) : ℕ :=
  max 16 (2 ^ lgConfigK / 4)

/-- A fresh sketch starts in sparse List mode with no coupons. -/
def initSketch (lgConfigK : ℕ) (tgt : TgtHllType) : HllSketch :=
  { lgConfigK := lgConfigK, tgtHllType := tgt, impl := SketchImpl.list [] }

/-- Modelled from the spec: promotion to a dense array replays every
stored coupon, coupon by coupon, into a fresh array. -/
def arrayFromCoupons (lgConfigK : ℕ) (tgt : TgtHllType) (coupons : List ℕ) :
    HllArrayState :=
  coupons.foldl couponUpdate (initArray lgConfigK tgt)

/-- Modelled from the spec: the Representation Controller's update path.
A coupon already present in the sparse List/Set is silently absorbed as a
no-op; a new coupon is appended, promoting List→Set at the list capacity
and Set→Array once the set threshold is exceeded; in Array mode the
coupon goes through `couponUpdate`. -/
def sketchUpdate (sk : HllSketch) (coupon : ℕ) : HllSketch :=
  match sk.impl with
  | SketchImpl.list cs =>
    if coupon ∈ cs then sk
    else
      let cs' := cs ++ [coupon]
      if listToSetThreshold ≤ cs'.length then { sk with impl := SketchImpl.set cs' }
      else { sk with impl := SketchImpl.list cs' }
  | SketchImpl.set cs =>
    if coupon ∈ cs then sk
    else
      let cs' := cs ++ [coupon]
      if sparsePromotionThreshold sk.lgConfigK < cs'.length then
        { sk with impl := SketchImpl.array (arrayFromCoupons sk.lgConfigK sk.tgtHllType cs') }
      else { sk with impl := SketchImpl.set cs' }
  | SketchImpl.array st => { sk with impl := SketchImpl.array (couponUpdate st coupon) }

/-- Modelled from the spec: merging a dense array into a sketch.  An
empty sparse target becomes a plain copy of the input (no out-of-order
marking); otherwise the target's coupons are replayed into the combined
array and the result is marked out of order; two dense arrays combine
through `mergeArray`. -/
def mergeIntoSketch (sk : HllSketch) (other : HllArrayState) : HllSketch :=
  match sk.impl with
  | SketchImpl.list cs =>
    if cs.isEmpty then { sk with impl := SketchImpl.array other }
    else { sk with impl := SketchImpl.array { cs.foldl couponUpdate other with oooFlag := true } }
  | SketchImpl.set cs =>
    if cs.isEmpty then { sk with impl := SketchImpl.array other }
    else { sk with impl := SketchImpl.array { cs.foldl couponUpdate other with oooFlag := true } }
  | SketchImpl.array st => { sk with impl := SketchImpl.array (mergeArray st other) }

/-- Out-of-order status of a sketch: sparse representations are always
sequential; a dense array reports its `oooFlag`. -/
def isOutOfOrder (sk : HllSketch) : Bool :=
  match sk.impl with
  | SketchImpl.list _ => false
  | SketchImpl.set _ => false
  | SketchImpl.array st => st.oooFlag

/-- The operations of a sketch's lifetime: a coupon update (covering both
`update` and `couponUpdate`), a merge contribution, and serialization
(which does not mutate the sketch). -/
inductive SketchOp
  | upd (coupon : ℕ)
  | mergeArr (other : HllArrayState)
  | serializeOp (compact : Bool)

/-- Apply one lifetime operation to a sketch. -/
def sketchApply (sk : HllSketch) : SketchOp → HllSketch
  | SketchOp.upd c => sketchUpdate sk c
  | SketchOp.mergeArr other => mergeIntoSketch sk other
  | SketchOp.serializeOp _ => sk

/-- Sketch-level estimate: sparse List/Set report the exact coupon count;
a dense array reports `HllArrayState.getEstimate`. -/
def sketchEstimate (sk : HllSketch) : ℚ :=
  match sk.impl with
  | SketchImpl.list cs => cs.length
  | SketchImpl.set cs => cs.length
  | SketchImpl.array st => st.getEstimate

/-- Sketch-level lower bound: after validating `numStdDev`, sparse modes
report the exact coupon count, a dense array its scaled estimate. -/
def sketchLowerBound (sk : HllSketch) (numStdDev : ℕ) : Option ℚ :=
  if 1 ≤ numStdDev ∧ numStdDev ≤ 3 then
    match sk.impl with
    | SketchImpl.list cs => some cs.length
    | SketchImpl.set cs => some cs.length
    | SketchImpl.array st => st.getLowerBound numStdDev
  else none

/-- Sketch-level upper bound: after validating `numStdDev`, sparse modes
report the exact coupon count, a dense array its scaled estimate. -/
def sketchUpperBound (sk : HllSketch) (numStdDev : ℕ) : Option ℚ :=
  if 1 ≤ numStdDev ∧ numStdDev ≤ 3 then
    match sk.impl with
    | SketchImpl.list cs => some cs.length
    | SketchImpl.set cs => some cs.length
    | SketchImpl.array st => st.getUpperBound numStdDev
  else none

/-- The sparse coupon contents of a sketch, when it is in a sparse mode. -/
def sparseCoupons (sk : HllSketch) : Option (List ℕ) :=
  match sk.impl with
  | SketchImpl.list cs => some cs
  | SketchImpl.set cs => some cs
  | SketchImpl.array _ => none

/-- Iteration contents of a sketch: the stored coupons in sparse modes,
the per-bucket values in dense mode (`PairIterator` contract). -/
def iterationContents (sk : HllSketch) : List ℕ :=
  match sk.impl with
  | SketchImpl.list cs => cs
  | SketchImpl.set cs => cs
  | SketchImpl.array st => st.hllByteArr

/-- The mode bits of the serialized preamble: List, Set, or dense HLL. -/
inductive CurMode
  | LIST
  | SET
  | HLL
deriving DecidableEq

/-- Preamble-integer count declared for each mode (fixed constants of the
wire format). -/
def preIntsOfMode : CurMode → ℕ
  | CurMode.LIST => 2
  | CurMode.SET => 3
  | CurMode.HLL => 10

/-- Family identifier of the HLL sketch family in the shared preamble. -/
def hllFamilyId : ℕ := 7

/-- Serialization format version. -/
def hllSerVer : ℕ := 1

/-- Modelled from the spec: the serialized image of a sketch — the shared
preamble (preamble-integer count, version, family id, `lgConfigK`,
variant selector, flag bits, mode bits), the mode-specific preamble words
(coupon count for List/Set; `curMin`, `numAtCurMin` and the three
floating accumulators for Array), and the body (live coupons, or the
bucket-value array; IEEE byte packing of the doubles and sub-byte bucket
packing are abstracted). -/
structure SerImage where
  preInts : ℕ
  serVer : ℕ
  familyId : ℕ
  lgK : ℕ
  tgtHllType : TgtHllType
  emptyFlag : Bool
  compactFlag : Bool
  oooFlag : Bool
  curMode : CurMode
  couponCount : ℕ
  curMin : ℕ
  numAtCurMin : ℕ
  hipAccum : ℚ
  kxq0 : ℚ
  kxq1 : ℚ
  body : List ℕ
deriving DecidableEq

/-- Updatable-form capacity padding reserved past the live data. -/
def updatablePad (compact : Bool) (cap : ℕ) : List ℕ :=
  if compact then [] else List.replicate cap 0

/-- Modelled from the spec: `serialize(compact)` — produce the serialized
image of any in-memory representation, in compact form (live data only)
or updatable form (fixed reserved capacity after the live data). -/
def serializeSketch (sk : HllSketch) (compact : Bool) : SerImage :=
  match sk.impl with
  | SketchImpl.list cs =>
    { preInts := preIntsOfMode CurMode.LIST
      serVer := hllSerVer
      familyId := hllFamilyId
      lgK := sk.lgConfigK
      tgtHllType := sk.tgtHllType
      emptyFlag := cs.isEmpty
      compactFlag := compact
      oooFlag := false
      curMode := CurMode.LIST
      couponCount := cs.length
      curMin := 0
      numAtCurMin := 0
      hipAccum := 0
      kxq0 := 0
      kxq1 := 0
      body := cs ++ updatablePad compact listToSetThreshold }
  | SketchImpl.set cs =>
    { preInts := preIntsOfMode CurMode.SET
      serVer := hllSerVer
      familyId := hllFamilyId
      lgK := sk.lgConfigK
      tgtHllType := sk.tgtHllType
      emptyFlag := cs.isEmpty
      compactFlag := compact
      oooFlag := false
      curMode := CurMode.SET
      couponCount := cs.length
      curMin := 0
      numAtCurMin := 0
      hipAccum := 0
      kxq0 := 0
      kxq1 := 0
      body := cs ++ updatablePad compact (sparsePromotionThreshold sk.lgConfigK) }
  | SketchImpl.array st =>
    { preInts := preIntsOfMode CurMode.HLL
      serVer := hllSerVer
      familyId := hllFamilyId
      lgK := sk.lgConfigK
      tgtHllType := sk.tgtHllType
      emptyFlag := false
      compactFlag := compact
      oooFlag := st.oooFlag
      curMode := CurMode.HLL
      couponCount := 0
      curMin := st.curMin
      numAtCurMin := st.numAtCurMin
      hipAccum := st.hipAccum
      kxq0 := st.kxq0
      kxq1 := st.kxq1
      body := st.hllByteArr ++ updatablePad compact 4 }

/-- Modelled from the spec: deserialization.  Validate the family id, the
serialization version, the `lgConfigK` range, and that the
preamble-integer count matches the declared mode; then reconstruct the
exact representation indicated by the mode bits (trailing bytes beyond
the declared structure are ignored).  Any validation failure yields
`none`. -/
def deserializeSketch (img : SerImage) : Option HllSketch :=
  if img.familyId = hllFamilyId ∧ img.serVer = hllSerVer ∧
     4 ≤ img.lgK ∧ img.lgK ≤ 21 ∧ img.preInts = preIntsOfMode img.curMode then
    match img.curMode with
    | CurMode.LIST =>
      some { lgConfigK := img.lgK, tgtHllType := img.tgtHllType,
             impl := SketchImpl.list (img.body.take img.couponCount) }
    | CurMode.SET =>
      some { lgConfigK := img.lgK, tgtHllType := img.tgtHllType,
             impl := SketchImpl.set (img.body.take img.couponCount) }
    | CurMode.HLL =>
      some { lgConfigK := img.lgK, tgtHllType := img.tgtHllType,
             impl := SketchImpl.array
               { lgConfigK := img.lgK
                 tgtHllType := img.tgtHllType
                 hipAccum := img.hipAccum
                 kxq0 := img.kxq0
                 kxq1 := img.kxq1
                 hllByteArr := img.body.take (2 ^ img.lgK)
                 curMin := img.curMin
                 numAtCurMin := img.numAtCurMin
                 oooFlag := img.oooFlag } }
  else none

/-- Well-formedness of an active representation: a dense array agrees
with its handle on precision and variant and holds the full
`2^lgConfigK` bucket array. -/
def implWF (lgK : ℕ) (tgt : TgtHllType) : SketchImpl → Prop
  | SketchImpl.array st =>
    st.lgConfigK = lgK ∧ st.tgtHllType = tgt ∧ st.hllByteArr.length = 2 ^ st.lgConfigK
  | _ => True

instance : (impl : SketchImpl) → Decidable (implWF lgK tgt impl)
  | SketchImpl.list _ => Decidable.isTrue trivial
  | SketchImpl.set _ => Decidable.isTrue trivial
  | SketchImpl.array _ => inferInstanceAs (Decidable (_ ∧ _ ∧ _))

/-- Well-formedness of a sketch handle for serialization: the configured
precision is in the valid range and the dense representation, if active,
is consistent with the handle. -/
def SketchWF (sk : HllSketch) : Prop :=
  4 ≤ sk.lgConfigK ∧ sk.lgConfigK ≤ 21 ∧ implWF sk.lgConfigK sk.tgtHllType sk.impl

instance (sk : HllSketch) : Decidable (SketchWF sk) :=
  inferInstanceAs (Decidable (_ ∧ _ ∧ _))

/-- The `curMin`/`numAtCurMin` bookkeeping invariant of a dense array
(together with the structural fact that the bucket array has its full
`2^lgConfigK` length): `curMin` is a lower bound on every stored bucket
value, `numAtCurMin` is the exact number of buckets at `curMin`, and
`curMin` is pinned at zero for the 6- and 8-bit variants. -/
def ArrayInv (st : HllArrayState) : Prop :=
  st.hllByteArr.length = 2 ^ st.lgConfigK ∧
  (∀ v ∈ st.hllByteArr, st.curMin ≤ v) ∧
  st.numAtCurMin = countVal st.curMin st.hllByteArr ∧
  ((st.tgtHllType = TgtHllType.HLL_6 ∨ st.tgtHllType = TgtHllType.HLL_8) →
    st.curMin = 0)

/-- Dense-array states reachable in a sketch's lifetime: a freshly
promoted array, a coupon update of a reachable state, or a union of two
reachable states at the same configured precision. -/
inductive ReachableArray : HllArrayState → Prop
  | init (lgConfigK : ℕ) (tgt : TgtHllType) : ReachableArray (initArray lgConfigK tgt)
  | step (st : HllArrayState) (c : ℕ) (h : ReachableArray st) :
      ReachableArray (couponUpdate st c)
  | merge (a b : HllArrayState) (ha : ReachableArray a) (hb : ReachableArray b)
      (hlg : a.lgConfigK = b.lgConfigK) : ReachableArray (mergeArray a b)

/-- A coupon already present in (or already absorbed by) a sketch: a
member of the sparse List/Set contents, or — in dense mode — a coupon
whose value does not exceed its bucket's stored value. -/
def absorbed (sk : HllSketch) (coupon : ℕ) : Prop :=
  match sk.impl with
  | SketchImpl.list cs => coupon ∈ cs
  | SketchImpl.set cs => coupon ∈ cs
  | SketchImpl.array st =>
    couponValue coupon ≤ st.hllByteArr.getD (couponSlotNo coupon st.lgConfigK) 0

instance : (sk : HllSketch) → (coupon : ℕ) → Decidable (absorbed sk coupon)
  | ⟨_, _, SketchImpl.list cs⟩, coupon => inferInstanceAs (Decidable (coupon ∈ cs))
  | ⟨_, _, SketchImpl.set cs⟩, coupon => inferInstanceAs (Decidable (coupon ∈ cs))
  | ⟨_, _, SketchImpl.array st⟩, coupon =>
    inferInstanceAs (Decidable (couponValue coupon ≤
      st.hllByteArr.getD (couponSlotNo coupon st.lgConfigK) 0))

end DataSketches

namespace TupleSketch

/-- Modelled from the spec: the shared hashing collaborator's
`compute_seed_hash` function — a deterministic short (16-bit, nonzero)
value derived from the configured seed; the core only consumes it. -/
def compute_seed_hash (seed : ℕ) : ℕ :=
  (seed * 2654435761 + 104729) % 65535 + 1

/-- Modelled from the spec and the tuple-sketch tests: an update tuple
sketch — configured `lg_k`, sampling probability/theta, resize factor,
the stored seed hash, and the retained (key, summary) entries, kept in
insertion (hash-table) order. -/
structure UpdateTupleSketch where
  lg_k : ℕ
  theta : ℚ
  rf : ℕ
  seedHash : ℕ
  entries : List (ℕ × ℚ)
deriving DecidableEq

/-- Modelled from the tests: the builder's `build()`, recording the
configured parameters and the seed hash computed from the configured
seed. -/
def build (lg_k : ℕ) (p : ℚ) (rf : ℕ) (seed : ℕ) : UpdateTupleSketch :=
  { lg_k := lg_k, theta := p, rf := rf, seedHash := compute_seed_hash seed, entries := [] }

/-- The stored seed-hash compatibility value. -/
def UpdateTupleSketch.get_seed_hash (sk : UpdateTupleSketch) : ℕ := sk.seedHash

/-- Modelled from the spec and tests: a compact tuple sketch — the same
observable state plus an ordered flag. -/
structure CompactTupleSketch where
  theta : ℚ
  seedHash : ℕ
  entries : List (ℕ × ℚ)
  ordered : Bool
deriving DecidableEq

/-- Shared estimate helper: retained count divided by theta. -/
def estimateOf (numRetained : ℕ) (theta : ℚ) : ℚ := numRetained / theta

/-- Modelled from the spec: shared lower-bound helper on (retained count,
theta) — exact in exact mode (theta = 1). -/
def lowerBoundOf (numRetained : ℕ) (theta : ℚ) (numStdDev : ℕ) : ℚ :=
  if theta = 1 then numRetained
  else estimateOf numRetained theta * (1 - numStdDev / 10)

/-- Modelled from the spec: shared upper-bound helper on (retained count,
theta) — exact in exact mode (theta = 1). -/
def upperBoundOf (numRetained : ℕ) (theta : ℚ) (numStdDev : ℕ) : ℚ :=
  if theta = 1 then numRetained
  else estimateOf numRetained theta * (1 + numStdDev / 10)

/-- Observable accessors of the update sketch. -/
def UpdateTupleSketch.is_empty (sk : UpdateTupleSketch) : Bool := sk.entries.isEmpty

/-- Retained-entry count of the update sketch. -/
def UpdateTupleSketch.get_num_retained (sk : UpdateTupleSketch) : ℕ := sk.entries.length

/-- Theta of the update sketch. -/
def UpdateTupleSketch.get_theta (sk : UpdateTupleSketch) : ℚ := sk.theta

/-- Estimate of the update sketch. -/
def UpdateTupleSketch.get_estimate (sk : UpdateTupleSketch) : ℚ :=
  estimateOf sk.entries.length sk.theta

/-- Lower bound of the update sketch. -/
def UpdateTupleSketch.get_lower_bound (sk : UpdateTupleSketch) (numStdDev : ℕ) : ℚ :=
  lowerBoundOf sk.entries.length sk.theta numStdDev

/-- Upper bound of the update sketch. -/
def UpdateTupleSketch.get_upper_bound (sk : UpdateTupleSketch) (numStdDev : ℕ) : ℚ :=
  upperBoundOf sk.entries.length sk.theta numStdDev

/-- An update tuple sketch is never ordered (hash-table order). -/
def UpdateTupleSketch.is_ordered (_ : UpdateTupleSketch) : Bool := false

/-- Observable accessors of the compact sketch. -/
def CompactTupleSketch.is_empty (sk : CompactTupleSketch) : Bool := sk.entries.isEmpty

/-- Retained-entry count of the compact sketch. -/
def CompactTupleSketch.get_num_retained (sk : CompactTupleSketch) : ℕ := sk.entries.length

/-- Theta of the compact sketch. -/
def CompactTupleSketch.get_theta (sk : CompactTupleSketch) : ℚ := sk.theta

/-- Estimate of the compact sketch. -/
def CompactTupleSketch.get_estimate (sk : CompactTupleSketch) : ℚ :=
  estimateOf sk.entries.length sk.theta

/-- Lower bound of the compact sketch. -/
def CompactTupleSketch.get_lower_bound (sk : CompactTupleSketch) (numStdDev : ℕ) : ℚ :=
  lowerBoundOf sk.entries.length sk.theta numStdDev

/-- Upper bound of the compact sketch. -/
def CompactTupleSketch.get_upper_bound (sk : CompactTupleSketch) (numStdDev : ℕ) : ℚ :=
  upperBoundOf sk.entries.length sk.theta numStdDev

/-- Ordered flag of the compact sketch. -/
def CompactTupleSketch.is_ordered (sk : CompactTupleSketch) : Bool := sk.ordered

/-- Key order used when compacting. -/
def entryLE (a b : ℕ × ℚ) : Prop := a.1 ≤ b.1

instance : DecidableRel entryLE := fun a b => Nat.decLe a.1 b.1

/-- Modelled from the tests: `compact()` — same theta, seed hash and
entries, with the entries sorted by key and the ordered flag set. -/
def UpdateTupleSketch.compact (sk : UpdateTupleSketch) : CompactTupleSketch :=
  { theta := sk.theta
    seedHash := sk.seedHash
    entries := List.insertionSort entryLE sk.entries
    ordered := true }

end TupleSketch

namespace DataSketches

theorem countVal_replicate (n v : ℕ) : countVal v (List.replicate n v) = n := by
  induction n with
  | zero => rfl
  | succ m ih =>
      show (if v = v then 1 else 0) + countVal v (List.replicate m v) = m + 1
      rw [if_pos rfl, ih]
      omega

theorem listMin_le : ∀ (l : List ℕ), ∀ v ∈ l, listMin l ≤ v
  | [], v, hv => absurd hv (List.not_mem_nil v)
  | [x], v, hv => by
      rcases List.mem_singleton.mp hv with rfl
      exact le_refl (listMin [v])
  | x :: y :: t, v, hv => by
      rcases List.mem_cons.mp hv with rfl | hv'
      · exact min_le_left _ _
      · exact le_trans (min_le_right x (listMin (y :: t))) (listMin_le (y :: t) v hv')

theorem countVal_set (l : List ℕ) :
    ∀ (i w v : ℕ), i < l.length →
      countVal v (l.set i w) + (if l.getD i 0 = v then 1 else 0) =
        countVal v l + (if w = v then 1 else 0) := by
  induction l with
  | nil => intro i w v hi; simp at hi
  | cons x xs ih =>
      intro i w v hi
      cases i with
      | zero => simp [countVal]; split_ifs <;> omega
      | succ j =>
          have hj : j < xs.length := by simpa using hi
          have := ih j w v hj
          simp only [List.set, countVal, List.getD, List.get?] at *
          split_ifs at * <;> omega

theorem couponUpdate_oooFlag (st : HllArrayState) (c : ℕ) :
    (couponUpdate st c).oooFlag = st.oooFlag := by
  rcases st with ⟨lgK, tgt, hip, k0, k1, arr, cm, nacm, ooo⟩
  cases tgt <;>
    simp only [couponUpdate, hipAndKxQIncrementalUpdate] <;>
    split_ifs <;> rfl

theorem couponUpdate_lgConfigK (st : HllArrayState) (c : ℕ) :
    (couponUpdate st c).lgConfigK = st.lgConfigK := by
  rcases st with ⟨lgK, tgt, hip, k0, k1, arr, cm, nacm, ooo⟩
  cases tgt <;>
    simp only [couponUpdate, hipAndKxQIncrementalUpdate] <;>
    split_ifs <;> rfl

/-- Claim C1: `getEstimate()` returns the `hipAccum` accumulator directly
when `oooFlag` is false, and the composite estimator (derived from
`kxq0`/`kxq1` with small-range bias correction) when `oooFlag` is true;
once `oooFlag` is true the HIP accumulator has no influence on the
estimate. -/
theorem claim1_getEstimate_hip_or_composite (st : HllArrayState) :
    HllArrayState.getEstimate st =
      (if st.oooFlag then getCompositeEstimate st else st.hipAccum) ∧
    (st.oooFlag = true →
      HllArrayState.getEstimate st = getCompositeEstimate st ∧
      ∀ h : ℚ, HllArrayState.getEstimate { st with hipAccum := h } =
        HllArrayState.getEstimate st) := by
  refine ⟨rfl, fun hooo => ⟨?_, fun h => ?_⟩⟩
  · simp [HllArrayState.getEstimate, hooo]
  · simp [HllArrayState.getEstimate, hooo, getCompositeEstimate, getHllRawEstimate,
      getHllBitMapEstimate]

theorem claim1_witness :
    HllArrayState.getEstimate
      { lgConfigK := 4, tgtHllType := TgtHllType.HLL_8, hipAccum := 5,
        kxq0 := 16, kxq1 := 0, hllByteArr := List.replicate 16 0,
        curMin := 0, numAtCurMin := 16, oooFlag := true } =
    getCompositeEstimate
      { lgConfigK := 4, tgtHllType := TgtHllType.HLL_8, hipAccum := 5,
        kxq0 := 16, kxq1 := 0, hllByteArr := List.replicate 16 0,
        curMin := 0, numAtCurMin := 16, oooFlag := true } :=
  ((claim1_getEstimate_hip_or_composite _).2 rfl).1

/-- Claim C8: for `numStdDev` in the supported range 1–3 the bound
queries return the estimate scaled by `(1 ∓ numStdDev · relativeStdErr)`
from the fixed precomputed table, and for every `numStdDev` outside 1–3
the call fails with an input-validation error instead of returning a
value. -/
theorem claim8_bounds_validation (st : HllArrayState) (numStdDev : ℕ) :
    (1 ≤ numStdDev → numStdDev ≤ 3 →
      st.getLowerBound numStdDev =
        some (st.getEstimate * (1 - numStdDev * relativeStdErr st.lgConfigK)) ∧
      st.getUpperBound numStdDev =
        some (st.getEstimate * (1 + numStdDev * relativeStdErr st.lgConfigK))) ∧
    (numStdDev < 1 ∨ 3 < numStdDev →
      st.getLowerBound numStdDev = none ∧ st.getUpperBound numStdDev = none) := by
  constructor
  · intro h1 h3
    constructor <;>
      simp [HllArrayState.getLowerBound, HllArrayState.getUpperBound, h1, h3]
  · intro h
    have hnot : ¬ (1 ≤ numStdDev ∧ numStdDev ≤ 3) := by omega
    constructor <;>
      simp [HllArrayState.getLowerBound, HllArrayState.getUpperBound, hnot]

theorem claim8_witness :
    (HllArrayState.getLowerBound (initArray 4 TgtHllType.HLL_8) 2 =
      some ((initArray 4 TgtHllType.HLL_8).getEstimate * (1 - 2 * relativeStdErr 4)) ∧
     HllArrayState.getUpperBound (initArray 4 TgtHllType.HLL_8) 2 =
      some ((initArray 4 TgtHllType.HLL_8).getEstimate * (1 + 2 * relativeStdErr 4))) ∧
    (HllArrayState.getLowerBound (initArray 4 TgtHllType.HLL_8) 5 = none ∧
     HllArrayState.getUpperBound (initArray 4 TgtHllType.HLL_8) 5 = none) :=
  ⟨(claim8_bounds_validation (initArray 4 TgtHllType.HLL_8) 2).1 (by decide) (by decide),
   (claim8_bounds_validation (initArray 4 TgtHllType.HLL_8) 5).2 (by decide)⟩

end DataSketches

namespace TupleSketch

/-- Claim C9: a sketch built with seed `s` reports a seed hash equal to
`compute_seed_hash(s)`, the shared collaborator function; the stored
compatibility-check value is a deterministic function of the configured
seed alone. -/
theorem claim9_seed_hash (lg_k : ℕ) (p : ℚ) (rf : ℕ) (seed : ℕ) :
    (build lg_k p rf seed).get_seed_hash = compute_seed_hash seed := rfl

/-- Claim C10: `compact()` agrees with the update sketch on `is_empty`,
`get_estimate`, `get_lower_bound`, `get_upper_bound`, `get_theta`,
`get_num_retained` and the multiset of (key, summary) entries; the only
observable change is ordering — the compacted sketch reports
`is_ordered() = true` while the update sketch reports
`is_ordered() = false`. -/
theorem claim10_compact_observables (sk : UpdateTupleSketch) :
    sk.compact.is_empty = sk.is_empty ∧
    sk.compact.get_estimate = sk.get_estimate ∧
    (∀ numStdDev : ℕ,
      sk.compact.get_lower_bound numStdDev = sk.get_lower_bound numStdDev ∧
      sk.compact.get_upper_bound numStdDev = sk.get_upper_bound numStdDev) ∧
    sk.compact.get_theta = sk.get_theta ∧
    sk.compact.get_num_retained = sk.get_num_retained ∧
    (sk.compact.entries : Multiset (ℕ × ℚ)) = (sk.entries : Multiset (ℕ × ℚ)) ∧
    sk.is_ordered = false ∧
    sk.compact.is_ordered = true := by
  have hperm : (List.insertionSort entryLE sk.entries).Perm sk.entries :=
    List.perm_insertionSort entryLE sk.entries
  have hlen : (List.insertionSort entryLE sk.entries).length = sk.entries.length :=
    hperm.length_eq
  have hempty : ∀ (l₁ l₂ : List (ℕ × ℚ)), l₁.length = l₂.length →
      l₁.isEmpty = l₂.isEmpty := by
    intro l₁ l₂ h
    cases l₁ <;> cases l₂ <;> simp_all
  refine ⟨?_, ?_, ?_, rfl, ?_, ?_, rfl, rfl⟩
  · exact hempty _ _ hlen
  · simp [UpdateTupleSketch.compact, CompactTupleSketch.get_estimate,
      UpdateTupleSketch.get_estimate, hlen]
  · intro numStdDev
    constructor <;>
      simp [UpdateTupleSketch.compact, CompactTupleSketch.get_lower_bound,
        UpdateTupleSketch.get_lower_bound, CompactTupleSketch.get_upper_bound,
        UpdateTupleSketch.get_upper_bound, hlen]
  · simp [UpdateTupleSketch.compact, CompactTupleSketch.get_num_retained,
      UpdateTupleSketch.get_num_retained, hlen]
  · exact Multiset.coe_eq_coe.mpr hperm

end TupleSketch

namespace DataSketches

/-- Claim C5: a dense-array update with a coupon decoding to
`(bucketIndex, value)` is a no-op (no field of the state changes) when
`value` does not exceed the stored bucket value; when it does exceed it,
the bucket is set to `value` and `kxq0`/`kxq1` are adjusted by removing
the old value's contribution and adding the new value's contribution on
the side of the split point each value selects. -/
theorem claim5_couponUpdate_noop_or_adjust (st : HllArrayState) (coupon : ℕ)
    (slot v old : ℕ)
    (hslot : slot = couponSlotNo coupon st.lgConfigK)
    (hv : v = couponValue coupon)
    (hold : old = st.hllByteArr.getD slot 0) :
    (v ≤ old → couponUpdate st coupon = st) ∧
    (old < v →
      (couponUpdate st coupon).hllByteArr = st.hllByteArr.set slot v ∧
      (couponUpdate st coupon).kxq0 =
        st.kxq0 - (if old < kxqSplitPoint then invPow2 old else 0)
                + (if v < kxqSplitPoint then invPow2 v else 0) ∧
      (couponUpdate st coupon).kxq1 =
        st.kxq1 - (if old < kxqSplitPoint then 0 else invPow2 old)
                + (if v < kxqSplitPoint then 0 else invPow2 v)) := by
  subst hslot hv hold
  rcases st with ⟨lgK, tgt, hip, k0, k1, arr, cm, nacm, ooo⟩
  constructor
  · intro hle
    cases tgt <;> simp only [couponUpdate] <;> rw [if_pos hle]
  · intro hlt
    have hnle : ¬ (couponValue coupon ≤ arr.getD (couponSlotNo coupon lgK) 0) :=
      not_le.mpr hlt
    cases tgt <;>
      simp only [couponUpdate, hipAndKxQIncrementalUpdate] <;>
      rw [if_neg hnle] <;>
      split_ifs <;>
      refine ⟨rfl, ?_, ?_⟩ <;> dsimp only <;> ring

theorem claim5_witness :
    (couponUpdate (initArray 4 TgtHllType.HLL_8) 201326593).hllByteArr =
      (initArray 4 TgtHllType.HLL_8).hllByteArr.set 1 3 ∧
    (couponUpdate (initArray 4 TgtHllType.HLL_8) 201326593).kxq0 =
      (initArray 4 TgtHllType.HLL_8).kxq0 - (if 0 < kxqSplitPoint then invPow2 0 else 0)
        + (if 3 < kxqSplitPoint then invPow2 3 else 0) ∧
    (couponUpdate (initArray 4 TgtHllType.HLL_8) 201326593).kxq1 =
      (initArray 4 TgtHllType.HLL_8).kxq1 - (if 0 < kxqSplitPoint then 0 else invPow2 0)
        + (if 3 < kxqSplitPoint then 0 else invPow2 3) :=
  (claim5_couponUpdate_noop_or_adjust (initArray 4 TgtHllType.HLL_8) 201326593 1 3 0
    (by decide) (by decide) (by decide)).2 (by decide)

/-- Claim C6: updating a sketch with a coupon it already contains (or has
already absorbed) is a silent no-op in every representation — the state
and hence `getEstimate()` are unchanged, and the update is accepted, not
rejected as an error. -/
theorem claim6_duplicate_noop (sk : HllSketch) (coupon : ℕ)
    (h : absorbed sk coupon) :
    sketchUpdate sk coupon = sk ∧
    sketchEstimate (sketchUpdate sk coupon) = sketchEstimate sk := by
  have heq : sketchUpdate sk coupon = sk := by
    rcases sk with ⟨lgK, tgt, impl⟩
    cases impl with
    | list cs =>
        have hmem : coupon ∈ cs := h
        simp [sketchUpdate, hmem]
    | set cs =>
        have hmem : coupon ∈ cs := h
        simp [sketchUpdate, hmem]
    | array st =>
        have hle : couponValue coupon ≤
            st.hllByteArr.getD (couponSlotNo coupon st.lgConfigK) 0 := h
        have hno : couponUpdate st coupon = st := by
          unfold couponUpdate
          exact if_pos hle
        simp [sketchUpdate, hno]
  exact ⟨heq, by rw [heq]⟩

theorem claim6_witness :
    sketchUpdate
      { lgConfigK := 10, tgtHllType := TgtHllType.HLL_4,
        impl := SketchImpl.list [201326593] } 201326593 =
      { lgConfigK := 10, tgtHllType := TgtHllType.HLL_4,
        impl := SketchImpl.list [201326593] } ∧
    sketchEstimate
      (sketchUpdate
        { lgConfigK := 10, tgtHllType := TgtHllType.HLL_4,
          impl := SketchImpl.list [201326593] } 201326593) =
    sketchEstimate
      { lgConfigK := 10, tgtHllType := TgtHllType.HLL_4,
        impl := SketchImpl.list [201326593] } :=
  claim6_duplicate_noop _ 201326593 (by decide)

theorem ooo_mono_step (sk : HllSketch) (op : SketchOp)
    (h : isOutOfOrder sk = true) : isOutOfOrder (sketchApply sk op) = true := by
  rcases sk with ⟨lgK, tgt, impl⟩
  cases impl with
  | list cs => simp [isOutOfOrder] at h
  | set cs => simp [isOutOfOrder] at h
  | array st =>
      have hst : st.oooFlag = true := h
      cases op with
      | upd c =>
          show (couponUpdate st c).oooFlag = true
          rw [couponUpdate_oooFlag]
          exact hst
      | mergeArr other =>
          show (mergeArray st other).oooFlag = true
          rfl
      | serializeOp compact => exact h

/-- Claim C3: for every sketch and every sequence of operations (update,
coupon update, merge, serialize), once the out-of-order flag is true no
subsequent operation ever makes it false again — the out-of-order state
is one-way for the lifetime of the sketch. -/
theorem claim3_oooFlag_one_way (sk : HllSketch) (ops : List SketchOp)
    (h : isOutOfOrder sk = true) :
    isOutOfOrder (ops.foldl sketchApply sk) = true := by
  induction ops generalizing sk with
  | nil => exact h
  | cons op rest ih => exact ih _ (ooo_mono_step sk op h)

theorem claim3_witness :
    isOutOfOrder (List.foldl sketchApply
      { lgConfigK := 4, tgtHllType := TgtHllType.HLL_8,
        impl := SketchImpl.array
          { initArray 4 TgtHllType.HLL_8 with oooFlag := true } }
      [SketchOp.upd 201326593, SketchOp.serializeOp true,
       SketchOp.mergeArr (initArray 4 TgtHllType.HLL_8)]) = true :=
  claim3_oooFlag_one_way _ _ (by decide)

theorem sketchUpdate_sparse (sk : HllSketch) (d : List ℕ) (c : ℕ)
    (hsk : sparseCoupons sk = some d)
    (hnotin : c ∉ d)
    (hlen : d.length + 1 ≤ sparsePromotionThreshold sk.lgConfigK) :
    sparseCoupons (sketchUpdate sk c) = some (d ++ [c]) ∧
    (sketchUpdate sk c).lgConfigK = sk.lgConfigK := by
  rcases sk with ⟨lgK, tgt, impl⟩
  cases impl with
  | list cs =>
      have hd : cs = d := by simpa [sparseCoupons] using hsk
      subst hd
      simp only [sketchUpdate]
      rw [if_neg hnotin]
      split_ifs <;> simp [sparseCoupons]
  | set cs =>
      have hd : cs = d := by simpa [sparseCoupons] using hsk
      subst hd
      have hlen' : cs.length + 1 ≤ sparsePromotionThreshold lgK := hlen
      have hnp : ¬ sparsePromotionThreshold lgK < (cs ++ [c]).length := by
        simp only [List.length_append, List.length_singleton]
        omega
      simp only [sketchUpdate]
      rw [if_neg hnotin, if_neg hnp]
      simp [sparseCoupons]
  | array st => simp [sparseCoupons] at hsk

theorem sparse_feed : ∀ (cs : List ℕ) (sk : HllSketch) (d : List ℕ),
    sparseCoupons sk = some d →
    (d ++ cs).Nodup →
    (d ++ cs).length ≤ sparsePromotionThreshold sk.lgConfigK →
    sparseCoupons (cs.foldl sketchUpdate sk) = some (d ++ cs) ∧
    (cs.foldl sketchUpdate sk).lgConfigK = sk.lgConfigK := by
  intro cs
  induction cs with
  | nil =>
      intro sk d hsp hnd hlen
      simpa using hsp
  | cons c rest ih =>
      intro sk d hsp hnd hlen
      have hnotin : c ∉ d := by
        intro hc
        exact (List.nodup_append.mp hnd).2.2 hc (List.mem_cons_self c rest)
      have hlen1 : d.length + 1 ≤ sparsePromotionThreshold sk.lgConfigK := by
        have : (d ++ c :: rest).length = d.length + 1 + rest.length := by
          simp [List.length_append]
          omega
        omega
      obtain ⟨hsp', hlg'⟩ := sketchUpdate_sparse sk d c hsp hnotin hlen1
      have hassoc : (d ++ [c]) ++ rest = d ++ c :: rest := by simp
      have hnd' : ((d ++ [c]) ++ rest).Nodup := by rw [hassoc]; exact hnd
      have hlen' : ((d ++ [c]) ++ rest).length ≤
          sparsePromotionThreshold (sketchUpdate sk c).lgConfigK := by
        rw [hassoc, hlg']
        exact hlen
      obtain ⟨h1, h2⟩ := ih (sketchUpdate sk c) (d ++ [c]) hsp' hnd' hlen'
      refine ⟨?_, ?_⟩
      · show sparseCoupons (rest.foldl sketchUpdate (sketchUpdate sk c)) = _
        rw [h1, hassoc]
      · show (rest.foldl sketchUpdate (sketchUpdate sk c)).lgConfigK = _
        rw [h2, hlg']

theorem sparse_estimate (sk : HllSketch) (d : List ℕ)
    (h : sparseCoupons sk = some d) :
    sketchEstimate sk = d.length ∧
    (∀ numStdDev : ℕ, 1 ≤ numStdDev → numStdDev ≤ 3 →
      sketchLowerBound sk numStdDev = some d.length ∧
      sketchUpperBound sk numStdDev = some d.length) := by
  rcases sk with ⟨lgK, tgt, impl⟩
  cases impl with
  | list cs =>
      have hd : cs = d := by simpa [sparseCoupons] using h
      subst hd
      refine ⟨rfl, fun k h1 h3 => ?_⟩
      constructor <;> simp [sketchLowerBound, sketchUpperBound, h1, h3]
  | set cs =>
      have hd : cs = d := by simpa [sparseCoupons] using h
      subst hd
      refine ⟨rfl, fun k h1 h3 => ?_⟩
      constructor <;> simp [sketchLowerBound, sketchUpperBound, h1, h3]
  | array st => simp [sparseCoupons] at h

/-- Claim C7: a sketch fed exactly `n` distinct coupons, with `n` below
the List/Set promotion threshold, reports `getEstimate() = n` exactly,
and its lower and upper bounds also equal `n` — no estimation error in a
sparse representation. -/
theorem claim7_sparse_exact (lgConfigK : ℕ) (tgt : TgtHllType) (items : List ℕ)
    (hnd : items.Nodup)
    (hlen : items.length ≤ sparsePromotionThreshold lgConfigK) :
    sketchEstimate (items.foldl sketchUpdate (initSketch lgConfigK tgt)) =
      items.length ∧
    (∀ numStdDev : ℕ, 1 ≤ numStdDev → numStdDev ≤ 3 →
      sketchLowerBound (items.foldl sketchUpdate (initSketch lgConfigK tgt))
          numStdDev = some items.length ∧
      sketchUpperBound (items.foldl sketchUpdate (initSketch lgConfigK tgt))
          numStdDev = some items.length) := by
  obtain ⟨hsp, hlg⟩ := sparse_feed items (initSketch lgConfigK tgt) [] rfl
    (by simpa using hnd) (by simpa using hlen)
  rw [List.nil_append] at hsp
  exact sparse_estimate _ items hsp

theorem claim7_witness :
    sketchEstimate
      (List.foldl sketchUpdate (initSketch 10 TgtHllType.HLL_4) [1, 2, 3]) =
      ((3 : ℕ) : ℚ) ∧
    sketchLowerBound
      (List.foldl sketchUpdate (initSketch 10 TgtHllType.HLL_4) [1, 2, 3]) 1 =
      some ((3 : ℕ) : ℚ) ∧
    sketchUpperBound
      (List.foldl sketchUpdate (initSketch 10 TgtHllType.HLL_4) [1, 2, 3]) 1 =
      some ((3 : ℕ) : ℚ) :=
  ⟨(claim7_sparse_exact 10 TgtHllType.HLL_4 [1, 2, 3] (by decide) (by decide)).1,
   ((claim7_sparse_exact 10 TgtHllType.HLL_4 [1, 2, 3] (by decide) (by decide)).2
      1 (by decide) (by decide)).1,
   ((claim7_sparse_exact 10 TgtHllType.HLL_4 [1, 2, 3] (by decide) (by decide)).2
      1 (by decide) (by decide)).2⟩

theorem couponSlotNo_lt (c lgK : ℕ) : couponSlotNo c lgK < 2 ^ lgK :=
  Nat.mod_lt _ (pow_pos (by norm_num) lgK)

theorem initArray_inv (lgK : ℕ) (tgt : TgtHllType) : ArrayInv (initArray lgK tgt) := by
  refine ⟨by simp [initArray], ?_, ?_, fun _ => rfl⟩
  · intro v _
    exact Nat.zero_le v
  · show (2 : ℕ) ^ lgK = countVal 0 (List.replicate (2 ^ lgK) 0)
    rw [countVal_replicate]

theorem hipKxQ_curMin (host : HllArrayState) (o n : ℕ) :
    (hipAndKxQIncrementalUpdate host o n).curMin = host.curMin := rfl

theorem hipKxQ_numAtCurMin (host : HllArrayState) (o n : ℕ) :
    (hipAndKxQIncrementalUpdate host o n).numAtCurMin = host.numAtCurMin := rfl

theorem couponUpdate_inv (st : HllArrayState) (c : ℕ) (h : ArrayInv st) :
    ArrayInv (couponUpdate st c) := by
  obtain ⟨hlen, hmin, hcount, hwide⟩ := h
  rcases st with ⟨lgK, tgt, hip, k0, k1, arr, cm, nacm, ooo⟩
  dsimp only at hlen hmin hcount hwide
  have hslot : couponSlotNo c lgK < arr.length := by
    rw [hlen]; exact couponSlotNo_lt c lgK
  have hgd : arr.getD (couponSlotNo c lgK) 0 ∈ arr := by
    rw [List.getD_eq_getElem arr 0 hslot]
    exact List.getElem_mem hslot
  by_cases hle : couponValue c ≤ arr.getD (couponSlotNo c lgK) 0
  · unfold couponUpdate
    dsimp only
    rw [if_pos hle]
    exact ⟨hlen, hmin, hcount, hwide⟩
  · have hlt := not_le.mp hle
    have hlenset : (arr.set (couponSlotNo c lgK) (couponValue c)).length = 2 ^ lgK := by
      rw [List.length_set]; exact hlen
    have hcs := countVal_set arr (couponSlotNo c lgK) (couponValue c) cm hslot
    cases tgt with
    | HLL_4 =>
        unfold couponUpdate
        dsimp only
        rw [if_neg hle]
        by_cases hoc : arr.getD (couponSlotNo c lgK) 0 = cm
        · by_cases hn1 : nacm ≤ 1
          · rw [if_pos hoc, if_pos hn1]
            refine ⟨hlenset, ?_, rfl, ?_⟩
            · exact listMin_le _
            · intro hor
              rcases hor with h6 | h8
              · exact TgtHllType.noConfusion h6
              · exact TgtHllType.noConfusion h8
          · rw [if_pos hoc, if_neg hn1]
            have hcmlt : cm < couponValue c := lt_of_le_of_lt (le_of_eq hoc.symm) hlt
            refine ⟨hlenset, ?_, ?_, ?_⟩
            · intro x hx
              rcases List.mem_or_eq_of_mem_set hx with hx' | rfl
              · exact hmin x hx'
              · exact le_of_lt hcmlt
            · rw [if_pos hoc] at hcs
              have hvne : ¬ (couponValue c = cm) := by omega
              rw [if_neg hvne] at hcs
              simp only [hipKxQ_curMin, hipKxQ_numAtCurMin]
              omega
            · intro hor
              rcases hor with h6 | h8
              · exact TgtHllType.noConfusion h6
              · exact TgtHllType.noConfusion h8
        · rw [if_neg hoc]
          have hcmle : cm ≤ arr.getD (couponSlotNo c lgK) 0 := hmin _ hgd
          refine ⟨hlenset, ?_, ?_, ?_⟩
          · intro x hx
            rcases List.mem_or_eq_of_mem_set hx with hx' | rfl
            · exact hmin x hx'
            · exact le_of_lt (lt_of_le_of_lt hcmle hlt)
          · rw [if_neg hoc] at hcs
            have hvne : ¬ (couponValue c = cm) := by omega
            rw [if_neg hvne] at hcs
            simp only [hipKxQ_curMin, hipKxQ_numAtCurMin]
            omega
          · intro hor
            rcases hor with h6 | h8
            · exact TgtHllType.noConfusion h6
            · exact TgtHllType.noConfusion h8
    | HLL_6 =>
        have hcm0 : cm = 0 := hwide (Or.inl rfl)
        subst hcm0
        unfold couponUpdate
        dsimp only
        rw [if_neg hle]
        by_cases h0 : arr.getD (couponSlotNo c lgK) 0 = 0
        · rw [if_pos h0]
          refine ⟨hlenset, fun x _ => Nat.zero_le x, ?_, fun _ => rfl⟩
          rw [if_pos h0] at hcs
          have hvne : ¬ (couponValue c = 0) := by omega
          rw [if_neg hvne] at hcs
          simp only [hipKxQ_curMin, hipKxQ_numAtCurMin]
          omega
        · rw [if_neg h0]
          refine ⟨hlenset, fun x _ => Nat.zero_le x, ?_, fun _ => rfl⟩
          rw [if_neg h0] at hcs
          have hvne : ¬ (couponValue c = 0) := by omega
          rw [if_neg hvne] at hcs
          simp only [hipKxQ_curMin, hipKxQ_numAtCurMin]
          omega
    | HLL_8 =>
        have hcm0 : cm = 0 := hwide (Or.inr rfl)
        subst hcm0
        unfold couponUpdate
        dsimp only
        rw [if_neg hle]
        by_cases h0 : arr.getD (couponSlotNo c lgK) 0 = 0
        · rw [if_pos h0]
          refine ⟨hlenset, fun x _ => Nat.zero_le x, ?_, fun _ => rfl⟩
          rw [if_pos h0] at hcs
          have hvne : ¬ (couponValue c = 0) := by omega
          rw [if_neg hvne] at hcs
          simp only [hipKxQ_curMin, hipKxQ_numAtCurMin]
          omega
        · rw [if_neg h0]
          refine ⟨hlenset, fun x _ => Nat.zero_le x, ?_, fun _ => rfl⟩
          rw [if_neg h0] at hcs
          have hvne : ¬ (couponValue c = 0) := by omega
          rw [if_neg hvne] at hcs
          simp only [hipKxQ_curMin, hipKxQ_numAtCurMin]
          omega

theorem mergeArray_inv (a b : HllArrayState) (ha : ArrayInv a) (hb : ArrayInv b)
    (hlg : a.lgConfigK = b.lgConfigK) : ArrayInv (mergeArray a b) := by
  obtain ⟨hal, _, _, _⟩ := ha
  obtain ⟨hbl, _, _, _⟩ := hb
  rcases a with ⟨lgKa, tgta, hipa, k0a, k1a, arra, cma, nacma, oooa⟩
  rcases b with ⟨lgKb, tgtb, hipb, k0b, k1b, arrb, cmb, nacmb, ooob⟩
  dsimp only at hal hbl hlg
  subst hlg
  have hzl : (List.zipWith max arra arrb).length = 2 ^ lgKa := by
    rw [List.length_zipWith, hal, hbl]
    exact min_self _
  cases tgta with
  | HLL_4 =>
      refine ⟨hzl, ?_, rfl, ?_⟩
      · exact listMin_le _
      · intro hor
        rcases hor with h6 | h8
        · exact TgtHllType.noConfusion h6
        · exact TgtHllType.noConfusion h8
  | HLL_6 => exact ⟨hzl, fun x _ => Nat.zero_le x, rfl, fun _ => rfl⟩
  | HLL_8 => exact ⟨hzl, fun x _ => Nat.zero_le x, rfl, fun _ => rfl⟩

theorem reachable_inv (st : HllArrayState) (h : ReachableArray st) : ArrayInv st := by
  induction h with
  | init lgK tgt => exact initArray_inv lgK tgt
  | step st c _ ih => exact couponUpdate_inv st c ih
  | merge a b _ _ hlg iha ihb => exact mergeArray_inv a b iha ihb hlg

/-- Claim C4: in every reachable dense-array state, `curMin` is a lower
bound on every stored bucket value, `numAtCurMin` is the exact number of
buckets whose value equals `curMin`, and `curMin` is always 0 for the
6-bit and 8-bit variants (only the 4-bit variant tracks it
dynamically). -/
theorem claim4_curMin_numAtCurMin (st : HllArrayState) (h : ReachableArray st) :
    (∀ v ∈ st.hllByteArr, st.curMin ≤ v) ∧
    st.numAtCurMin = countVal st.curMin st.hllByteArr ∧
    ((st.tgtHllType = TgtHllType.HLL_6 ∨ st.tgtHllType = TgtHllType.HLL_8) →
      st.curMin = 0) := by
  obtain ⟨_, h2, h3, h4⟩ := reachable_inv st h
  exact ⟨h2, h3, h4⟩

theorem claim4_witness :
    (couponUpdate (initArray 4 TgtHllType.HLL_4) 201326593).numAtCurMin =
      countVal (couponUpdate (initArray 4 TgtHllType.HLL_4) 201326593).curMin
        (couponUpdate (initArray 4 TgtHllType.HLL_4) 201326593).hllByteArr :=
  (claim4_curMin_numAtCurMin _
    (ReachableArray.step _ 201326593 (ReachableArray.init 4 TgtHllType.HLL_4))).2.1

theorem deserialize_serialize (sk : HllSketch) (compact : Bool)
    (h : SketchWF sk) :
    deserializeSketch (serializeSketch sk compact) = some sk := by
  obtain ⟨h4, h21, hImpl⟩ := h
  rcases sk with ⟨lgK, tgt, impl⟩
  cases impl with
  | list cs =>
      simp only [serializeSketch, deserializeSketch]
      rw [if_pos]
      · rw [List.take_left]
      · exact ⟨trivial, trivial, h4, h21, trivial⟩
  | set cs =>
      simp only [serializeSketch, deserializeSketch]
      rw [if_pos]
      · rw [List.take_left]
      · exact ⟨trivial, trivial, h4, h21, trivial⟩
  | array st =>
      obtain ⟨hst1, hst2, hstlen⟩ := hImpl
      rcases st with ⟨slgK, stgt, hip, k0, k1, arr, cm, nacm, ooo⟩
      dsimp only at hst1 hst2 hstlen
      subst hst1
      subst hst2
      simp only [serializeSketch, deserializeSketch]
      rw [if_pos]
      · rw [← hstlen, List.take_left]
      · exact ⟨trivial, trivial, h4, h21, trivial⟩

/-- Claim C2: for every well-formed sketch state, in every representation
mode and for both compact and updatable forms, deserializing the image
produced by serialize yields a sketch with identical observable state —
same mode and contents, same estimate, same lower/upper bounds, same
iteration contents. -/
theorem claim2_serialize_roundtrip (sk : HllSketch) (compact : Bool)
    (h : SketchWF sk) :
    ∃ sk', deserializeSketch (serializeSketch sk compact) = some sk' ∧
      sk'.impl = sk.impl ∧
      sketchEstimate sk' = sketchEstimate sk ∧
      (∀ numStdDev : ℕ,
        sketchLowerBound sk' numStdDev = sketchLowerBound sk numStdDev ∧
        sketchUpperBound sk' numStdDev = sketchUpperBound sk numStdDev) ∧
      iterationContents sk' = iterationContents sk :=
  ⟨sk, deserialize_serialize sk compact h, rfl, rfl, fun _ => ⟨rfl, rfl⟩, rfl⟩

theorem claim2_witness :
    ∃ sk', deserializeSketch (serializeSketch
        { lgConfigK := 4, tgtHllType := TgtHllType.HLL_4,
          impl := SketchImpl.array (initArray 4 TgtHllType.HLL_4) } true) = some sk' ∧
      sk'.impl = SketchImpl.array (initArray 4 TgtHllType.HLL_4) ∧
      sketchEstimate sk' = sketchEstimate
        { lgConfigK := 4, tgtHllType := TgtHllType.HLL_4,
          impl := SketchImpl.array (initArray 4 TgtHllType.HLL_4) } ∧
      (∀ numStdDev : ℕ,
        sketchLowerBound sk' numStdDev = sketchLowerBound
          { lgConfigK := 4, tgtHllType := TgtHllType.HLL_4,
            impl := SketchImpl.array (initArray 4 TgtHllType.HLL_4) } numStdDev ∧
        sketchUpperBound sk' numStdDev = sketchUpperBound
          { lgConfigK := 4, tgtHllType := TgtHllType.HLL_4,
            impl := SketchImpl.array (initArray 4 TgtHllType.HLL_4) } numStdDev) ∧
      iterationContents sk' = iterationContents
        { lgConfigK := 4, tgtHllType := TgtHllType.HLL_4,
          impl := SketchImpl.array (initArray 4 TgtHllType.HLL_4) } :=
  claim2_serialize_roundtrip _ true (by decide)
